import Mathlib

/-!
Verification of the scene-ready animation handshake of the `corn` plugin
(`src/lib.rs`).

The repository is Bevy orchestration glue.  We shallowly embed the pieces
the claims are about:

* `AnimationToPlay`, the marker component spawned by
  `setup_mesh_and_animation` (graph handle + node index);
* the engine-side `AnimationPlayer` state, modelled as an association list
  from animation node index to its active-animation record, with
  `play(i).repeat()` embedded as `AnimationPlayer.playRepeat`
  (`play` is Bevy's entry-or-insert into `active_animations`; `repeat`
  sets the repetition mode of that entry to forever);
* an ECS `World` restricted to the component stores the observer touches:
  `Children` (the hierarchy), `AnimationToPlay`, `AnimationPlayer` and
  `AnimationGraphHandle`, each as a map from entity id (`Nat`) to an
  optional component;
* the observer `play_animation_when_ready`, embedded as a function from a
  world and the trigger's target entity to the resulting world.  The
  `commands.entity(child).insert(AnimationGraphHandle ...)` calls are
  deferred in Bevy and applied when the observer finishes; we accumulate
  them in a command list and apply them at the end, which is the net
  effect the claims speak about;
* `setup_mesh_and_animation`, embedded as the list of entities it spawns
  (the engine-produced graph handle and clip index are parameters);
* `draw_mesh_intersections`, embedded as the list of gizmo draw calls it
  issues for the current pointer interactions; the engine's
  floating-point `Vec3` is modelled over `Rat` and `Vec3::normalize` is
  an abstract parameter, since the claim about this system concerns only
  when drawing happens, not the drawn coordinates.
-/

/-- The marker component from `src/lib.rs` (lines 188-192): a reference to
the animation graph asset and the node index of the clip to play.  Asset
handles are modelled as `Nat` ids. -/
structure AnimationToPlay where
  graph_handle : Nat
  index : Nat
  deriving DecidableEq

/-- Bevy's `RepeatAnimation` repetition mode of an active animation. -/
inductive RepeatAnimation where
  | never
  | count (n : Nat)
  | forever
  deriving DecidableEq

/-- The per-node active-animation record of an `AnimationPlayer`, reduced
to the field the observer touches: the repetition mode (Bevy's default is
`never`; `.repeat()` sets it to `forever`).  Bevy's field is also named
`repeat`, which is a reserved word here. -/
structure ActiveAnimation where
  repeat_mode : RepeatAnimation
  deriving DecidableEq

/-- Engine `AnimationPlayer` component: its map of active animations,
keyed by animation node index, as an association list. -/
structure AnimationPlayer where
  active_animations : List (Nat × ActiveAnimation)
  deriving DecidableEq

/-- Association-list lookup in `active_animations`. -/
def lookupAnim : List (Nat × ActiveAnimation) → Nat → Option ActiveAnimation
  | [], _ => none
  | (k, a) :: rest, i => if k = i then some a else lookupAnim rest i

/-- Set the entry for node `i` to repeat-forever, inserting it (Bevy's
`entry(i).or_default()` followed by `.repeat()`) if absent. -/
def setRepeatForever : List (Nat × ActiveAnimation) → Nat → List (Nat × ActiveAnimation)
  | [], i => [(i, { repeat_mode := RepeatAnimation.forever })]
  | (k, a) :: rest, i =>
    if k = i then (k, { repeat_mode := RepeatAnimation.forever }) :: rest
    else (k, a) :: setRepeatForever rest i

/-- `player.play(animation_to_play.index).repeat()` from line 154 of
`src/lib.rs`: start (or keep) the animation at node `i` and set it to
repeat forever. -/
def AnimationPlayer.playRepeat (p : AnimationPlayer) (i : Nat) : AnimationPlayer :=
  { active_animations := setRepeatForever p.active_animations i }

/-- Does player `p` have node `i` active with infinite repeat? -/
def isPlayingForever (p : AnimationPlayer) (i : Nat) : Bool :=
  match lookupAnim p.active_animations i with
  | some a => decide (a.repeat_mode = RepeatAnimation.forever)
  | none => false

/-- The slice of the ECS world the observer reads and writes.  Entities
are `Nat` ids; each component store maps an entity to its optional
component.  `fuel` bounds the descendant traversal (any bound at least
the number of entities is exact; Bevy hierarchies are finite and
acyclic). -/
structure World where
  fuel : Nat
  children : Nat → List Nat
  animations_to_play : Nat → Option AnimationToPlay
  players : Nat → Option AnimationPlayer
  graph_handles : Nat → Option Nat

/-- Bevy's `DescendantIter`: breadth-first traversal of the `Children`
hierarchy, popping the queue front and pushing the popped entity's
children. -/
def descendantsBFS (children : Nat → List Nat) : Nat → List Nat → List Nat
  | 0, _ => []
  | _ + 1, [] => []
  | fuel + 1, e :: queue => e :: descendantsBFS children fuel (queue ++ children e)

/-- `children.iter_descendants(target)` from line 147: all descendants of
`e` in breadth-first order, the root excluded. -/
def iter_descendants (w : World) (e : Nat) : List Nat :=
  descendantsBFS w.children w.fuel (w.children e)

/-- The body of the observer's `for child in ...` loop (lines 147-162):
walk the descendant list; for each child whose `AnimationPlayer` lookup
succeeds, apply `play(index).repeat()` in place and queue a deferred
`insert(AnimationGraphHandle(graph_handle))` command for that child.
Children whose player lookup fails are skipped silently. -/
def observerLoop (atp : AnimationToPlay) :
    List Nat → (Nat → Option AnimationPlayer) → List (Nat × Nat) →
    ((Nat → Option AnimationPlayer) × List (Nat × Nat))
  | [], players, cmds => (players, cmds)
  | child :: rest, players, cmds =>
    match players child with
    | some player =>
      observerLoop atp rest
        (fun e => if e = child then some (player.playRepeat atp.index) else players e)
        (cmds ++ [(child, atp.graph_handle)])
    | none => observerLoop atp rest players cmds

/-- Flush of the deferred `Commands`: each `(entity, handle)` pair inserts
(overwriting) an `AnimationGraphHandle` component, in order. -/
def applyCommands : List (Nat × Nat) → (Nat → Option Nat) → (Nat → Option Nat)
  | [], g => g
  | (e, h) :: rest, g => applyCommands rest (fun x => if x = e then some h else g x)

/-- The observer `play_animation_when_ready` (lines 131-164) applied to a
`SceneInstanceReady` trigger whose target is `target`: if the
`AnimationToPlay` lookup on the target fails, nothing happens; otherwise
run the descendant loop and flush the queued graph-handle insertions. -/
def play_animation_when_ready (w : World) (target : Nat) : World :=
  match w.animations_to_play target with
  | some animation_to_play =>
    let res := observerLoop animation_to_play (iter_descendants w target) w.players []
    { w with players := res.1, graph_handles := applyCommands res.2 w.graph_handles }
  | none => w

/-- `const FACTORY` (line 39). -/
def FACTORY : String := "factory.glb"

/-- `const CORN` (line 40). -/
def CORN : String := "corn.glb"

/-- An entity spawned by the startup system, reduced to the fields the
claims are about: the optional `AnimationToPlay` marker, the optional
`SceneRoot` scene-load request (as its asset file), and whether
`.observe(play_animation_when_ready)` was attached to it.  (The corn
entity's `Transform` is irrelevant to the claims and omitted.) -/
structure SpawnedEntity where
  animation_to_play : Option AnimationToPlay
  scene_root : Option String
  has_play_observer : Bool
  deriving DecidableEq

/-- `setup_mesh_and_animation` (lines 42-86) as the list of entities it
spawns, in spawn order.  `graph_handle` is the handle returned by
`graphs.add` and `index` the node index returned by
`AnimationGraph::from_clip`; both are produced by the engine and are
parameters here.  The first spawn carries the marker and the factory
scene request and is observed; the second carries only the corn scene
request. -/
def setup_mesh_and_animation (graph_handle index : Nat) : List SpawnedEntity :=
  [ { animation_to_play := some { graph_handle := graph_handle, index := index },
      scene_root := some FACTORY,
      has_play_observer := true },
    { animation_to_play := none,
      scene_root := some CORN,
      has_play_observer := false } ]

/-- Engine `Vec3`, over `Rat` (the drawing claim concerns only when
drawing happens, not floating-point coordinates). -/
abbrev V3 := Rat × Rat × Rat

/-- Componentwise vector addition. -/
def addV3 (a b : V3) : V3 := (a.1 + b.1, a.2.1 + b.2.1, a.2.2 + b.2.2)

/-- Scalar multiple of a vector. -/
def smulV3 (c : Rat) (v : V3) : V3 := (c * v.1, c * v.2.1, c * v.2.2)

/-- Engine `HitData`, reduced to the two optional fields the system
reads. -/
structure HitData where
  position : Option V3
  normal : Option V3
  deriving DecidableEq

/-- Engine `PointerInteraction`: the pointer's hit list sorted nearest
first (entity id paired with hit data). -/
structure PointerInteraction where
  sorted_entities : List (Nat × HitData)
  deriving DecidableEq

/-- Bevy's `PointerInteraction::get_nearest_hit`: the first element of the
sorted hit list, if any. -/
def get_nearest_hit (p : PointerInteraction) : Option (Nat × HitData) :=
  p.sorted_entities.head?

/-- Rust's `Option::zip`: `some` exactly when both are. -/
def optZip : Option V3 → Option V3 → Option (V3 × V3)
  | some a, some b => some (a, b)
  | _, _ => none

/-- The debug colors used by `draw_mesh_intersections`. -/
inductive GColor where
  | red500
  | pink100
  deriving DecidableEq

/-- A gizmo draw call issued by `draw_mesh_intersections`. -/
inductive GizmoCmd where
  | sphere (center : V3) (radius : Rat) (color : GColor)
  | arrow (start stop : V3) (color : GColor)
  deriving DecidableEq

/-- `draw_mesh_intersections` (lines 167-183): for every pointer, take its
nearest hit if any, keep it only if both position and normal are present,
and draw a small sphere at the hit point and an arrow along the
normalized normal.  `nrm` stands for the engine's `Vec3::normalize`. -/
def draw_mesh_intersections (nrm : V3 → V3) (q_pointers : List PointerInteraction) :
    List GizmoCmd :=
  ((q_pointers.filterMap get_nearest_hit).filterMap
      (fun eh => optZip eh.2.position eh.2.normal)).flatMap
    (fun pn =>
      [GizmoCmd.sphere pn.1 ((1 : Rat) / 20) GColor.red500,
       GizmoCmd.arrow pn.1 (addV3 pn.1 (smulV3 ((1 : Rat) / 2) (nrm pn.2))) GColor.pink100])

/-- Per-pointer characterization of the loop body of
`draw_mesh_intersections`: the draw calls one pointer contributes. -/
def drawsForPointer (nrm : V3 → V3) (p : PointerInteraction) : List GizmoCmd :=
  match get_nearest_hit p with
  | some eh =>
    match eh.2.position, eh.2.normal with
    | some point, some normal =>
      [GizmoCmd.sphere point ((1 : Rat) / 20) GColor.red500,
       GizmoCmd.arrow point (addV3 point (smulV3 ((1 : Rat) / 2) (nrm normal))) GColor.pink100]
    | _, _ => []
  | none => []

/-! ## Helper lemmas about the observer loop -/

lemma setRepeatForever_lookup_self (l : List (Nat × ActiveAnimation)) (i : Nat) :
    lookupAnim (setRepeatForever l i) i = some { repeat_mode := RepeatAnimation.forever } := by
  induction l with
  | nil => simp [setRepeatForever, lookupAnim]
  | cons hd tl ih =>
    obtain ⟨k, a⟩ := hd
    by_cases h : k = i
    · simp [setRepeatForever, h, lookupAnim]
    · simp [setRepeatForever, h, lookupAnim, ih]

lemma playRepeat_isPlayingForever (p : AnimationPlayer) (i : Nat) :
    isPlayingForever (p.playRepeat i) i = true := by
  simp [isPlayingForever, AnimationPlayer.playRepeat, setRepeatForever_lookup_self]

lemma setRepeatForever_idem (l : List (Nat × ActiveAnimation)) (i : Nat) :
    setRepeatForever (setRepeatForever l i) i = setRepeatForever l i := by
  induction l with
  | nil => simp [setRepeatForever]
  | cons hd tl ih =>
    obtain ⟨k, a⟩ := hd
    by_cases h : k = i
    · simp [setRepeatForever, h]
    · simp [setRepeatForever, h, ih]

lemma playRepeat_idem (p : AnimationPlayer) (i : Nat) :
    (p.playRepeat i).playRepeat i = p.playRepeat i := by
  simp [AnimationPlayer.playRepeat, setRepeatForever_idem]

/-- Pointwise effect of the observer loop on the player store: a child's
player is untouched when absent or outside the traversed list, and has
`play(index).repeat()` applied when present and traversed (duplicates in
the list collapse by idempotence of `playRepeat`). -/
lemma observerLoop_players (atp : AnimationToPlay) (l : List Nat)
    (players : Nat → Option AnimationPlayer) (cmds : List (Nat × Nat)) (e : Nat) :
    (observerLoop atp l players cmds).1 e =
      match players e with
      | none => none
      | some p => if e ∈ l then some (p.playRepeat atp.index) else some p := by
  induction l generalizing players cmds with
  | nil => cases he : players e <;> simp [observerLoop, he]
  | cons c rest ih =>
    by_cases hec : e = c
    · subst hec
      cases he : players e with
      | none => simp [observerLoop, he, ih, he]
      | some p =>
        rw [observerLoop, he]
        rw [ih]
        simp only [if_pos rfl, he]
        by_cases hr : e ∈ rest
        · simp [hr, playRepeat_idem]
        · simp [hr]
    · cases he : players e with
      | none =>
        cases hc : players c with
        | none => rw [observerLoop, hc, ih, he]
        | some p =>
          rw [observerLoop, hc, ih]
          simp [hec, he]
      | some p =>
        cases hc : players c with
        | none =>
          rw [observerLoop, hc, ih, he]
          simp [hec]
        | some q =>
          rw [observerLoop, hc, ih]
          simp [hec, he]

/-- The observer loop appends one `(child, graph_handle)` insertion
command for every traversed child whose player lookup succeeds. -/
lemma observerLoop_cmds (atp : AnimationToPlay) (l : List Nat)
    (players : Nat → Option AnimationPlayer) (cmds : List (Nat × Nat)) :
    (observerLoop atp l players cmds).2 =
      cmds ++ (l.filter (fun c => (players c).isSome)).map
        (fun c => (c, atp.graph_handle)) := by
  induction l generalizing players cmds with
  | nil => simp [observerLoop]
  | cons c rest ih =>
    cases hc : players c with
    | none =>
      rw [observerLoop, hc, ih]
      simp [List.filter_cons, hc]
    | some p =>
      rw [observerLoop, hc, ih]
      have hfe : rest.filter
            (fun x => ((fun e => if e = c then some (p.playRepeat atp.index)
              else players e) x).isSome) =
          rest.filter (fun x => (players x).isSome) := by
        apply List.filter_congr
        intro x _
        by_cases hx : x = c
        · subst hx
          simp [hc]
        · simp [hx]
      rw [hfe]
      simp [List.filter_cons, hc]

/-- The last insertion command for entity `e` in a command list, if any
(the later insert overwrites the earlier). -/
def lookupLast : List (Nat × Nat) → Nat → Option Nat
  | [], _ => none
  | (a, b) :: rest, e =>
    match lookupLast rest e with
    | some h => some h
    | none => if e = a then some b else none

/-- Flushing a command list sets each entity to its last queued handle and
leaves every other entity untouched. -/
lemma applyCommands_eq (cmds : List (Nat × Nat)) (g : Nat → Option Nat) (e : Nat) :
    applyCommands cmds g e =
      match lookupLast cmds e with
      | some h => some h
      | none => g e := by
  induction cmds generalizing g with
  | nil => simp [applyCommands, lookupLast]
  | cons hd rest ih =>
    obtain ⟨a, b⟩ := hd
    rw [applyCommands, ih]
    cases h : lookupLast rest e with
    | some v => simp [lookupLast, h]
    | none =>
      by_cases hea : e = a
      · subst hea
        simp [lookupLast, h]
      · simp [lookupLast, h, hea]

lemma lookupLast_eq_none (cmds : List (Nat × Nat)) (e : Nat)
    (h : e ∉ cmds.map Prod.fst) : lookupLast cmds e = none := by
  induction cmds with
  | nil => rfl
  | cons hd rest ih =>
    obtain ⟨a, b⟩ := hd
    simp only [List.map_cons, List.mem_cons] at h
    push_neg at h
    rw [lookupLast, ih h.2]
    simp [h.1]

lemma lookupLast_const_handle (cmds : List (Nat × Nat)) (e h : Nat)
    (hall : ∀ x ∈ cmds, x.2 = h) (hmem : e ∈ cmds.map Prod.fst) :
    lookupLast cmds e = some h := by
  induction cmds with
  | nil => simp at hmem
  | cons hd rest ih =>
    obtain ⟨a, b⟩ := hd
    have hb : b = h := hall (a, b) (List.mem_cons_self _ _)
    simp only [List.map_cons, List.mem_cons] at hmem
    by_cases hr : e ∈ rest.map Prod.fst
    · rw [lookupLast, ih (fun x hx => hall x (List.mem_cons_of_mem _ hx)) hr]
    · have hea : e = a := by tauto
      rw [lookupLast, lookupLast_eq_none rest e hr]
      simp [hea, hb]

/-- Flushing the same command list twice is the same as flushing it
once. -/
lemma applyCommands_idem (cmds : List (Nat × Nat)) (g : Nat → Option Nat) :
    applyCommands cmds (applyCommands cmds g) = applyCommands cmds g := by
  funext e
  rw [applyCommands_eq, applyCommands_eq]
  cases h : lookupLast cmds e <;> simp [h]

/-! ## Concrete worlds used to witness the theorems -/

/-- A world with a marker on entity 0, one child (entity 1) carrying an
animation player, and nothing else. -/
def demoWorld : World where
  fuel := 2
  children := fun n => if n = 0 then [1] else []
  animations_to_play := fun n =>
    if n = 0 then some { graph_handle := 7, index := 2 } else none
  players := fun n => if n = 1 then some { active_animations := [] } else none
  graph_handles := fun _ => none

/-- A world with no components at all. -/
def emptyWorld : World where
  fuel := 0
  children := fun _ => []
  animations_to_play := fun _ => none
  players := fun _ => none
  graph_handles := fun _ => none

/-- A world with a marker on entity 0 and a child entity 1, but no
animation player anywhere. -/
def markerOnlyWorld : World where
  fuel := 2
  children := fun n => if n = 0 then [1] else []
  animations_to_play := fun n =>
    if n = 0 then some { graph_handle := 7, index := 2 } else none
  players := fun _ => none
  graph_handles := fun _ => none

/-! ## Claim theorems -/

/-- C1: for a scene-ready trigger whose target carries an
`AnimationToPlay` marker, every descendant of the target that carries an
`AnimationPlayer` ends the observer invocation with playback active at
the marker's stored node index with infinite repeat, and with an
`AnimationGraphHandle` for the marker's graph handle inserted on it; this
holds for every such descendant, not just one. -/
theorem observer_plays_every_descendant_player (w : World) (target : Nat)
    (atp : AnimationToPlay) (hm : w.animations_to_play target = some atp)
    (child : Nat) (hc : child ∈ iter_descendants w target)
    (p : AnimationPlayer) (hp : w.players child = some p) :
    (∃ q, (play_animation_when_ready w target).players child = some q ∧
        isPlayingForever q atp.index = true) ∧
    (play_animation_when_ready w target).graph_handles child = some atp.graph_handle := by
  have hw : play_animation_when_ready w target =
      { w with
        players := (observerLoop atp (iter_descendants w target) w.players []).1,
        graph_handles := applyCommands
          (observerLoop atp (iter_descendants w target) w.players []).2
          w.graph_handles } := by
    simp only [play_animation_when_ready, hm]
  constructor
  · refine ⟨p.playRepeat atp.index, ?_, playRepeat_isPlayingForever p atp.index⟩
    rw [hw]
    show (observerLoop atp (iter_descendants w target) w.players []).1 child = _
    rw [observerLoop_players, hp]
    simp [hc]
  · rw [hw]
    show applyCommands (observerLoop atp (iter_descendants w target) w.players []).2
      w.graph_handles child = _
    rw [applyCommands_eq]
    have hall : ∀ x ∈ (observerLoop atp (iter_descendants w target) w.players []).2,
        x.2 = atp.graph_handle := by
      rw [observerLoop_cmds]
      intro x hx
      simp only [List.nil_append, List.mem_map] at hx
      obtain ⟨c, _, rfl⟩ := hx
      rfl
    have hmem : child ∈
        ((observerLoop atp (iter_descendants w target) w.players []).2).map Prod.fst := by
      rw [observerLoop_cmds]
      simp only [List.nil_append, List.map_map, List.mem_map, Function.comp_apply]
      exact ⟨child, by simp [List.mem_filter, hc, hp], rfl⟩
    rw [lookupLast_const_handle _ _ _ hall hmem]

/-- Witness for C1: in `demoWorld`, entity 0 carries the marker, entity 1
is a descendant with a player, and after the observer runs entity 1 plays
node 2 forever and carries graph handle 7. -/
theorem observer_plays_every_descendant_player_witness :
    demoWorld.animations_to_play 0 = some { graph_handle := 7, index := 2 } ∧
    1 ∈ iter_descendants demoWorld 0 ∧
    demoWorld.players 1 = some { active_animations := [] } ∧
    ((∃ q, (play_animation_when_ready demoWorld 0).players 1 = some q ∧
        isPlayingForever q 2 = true) ∧
     (play_animation_when_ready demoWorld 0).graph_handles 1 = some 7) :=
  ⟨rfl, by decide, rfl,
    observer_plays_every_descendant_player demoWorld 0
      { graph_handle := 7, index := 2 } rfl 1 (by decide)
      { active_animations := [] } rfl⟩

/-- C2: for a scene-ready trigger whose target carries no
`AnimationToPlay` marker, the observer mutates nothing: the resulting
world is the input world. -/
theorem observer_without_marker_is_no_op (w : World) (t : Nat)
    (hm : w.animations_to_play t = none) :
    play_animation_when_ready w t = w := by
  simp only [play_animation_when_ready, hm]

/-- Witness for C2: `emptyWorld` has no marker on entity 0 and the
observer leaves it unchanged. -/
theorem observer_without_marker_is_no_op_witness :
    emptyWorld.animations_to_play 0 = none ∧
    play_animation_when_ready emptyWorld 0 = emptyWorld :=
  ⟨rfl, observer_without_marker_is_no_op emptyWorld 0 rfl⟩

/-- C3: when the target carries a marker but no descendant carries an
`AnimationPlayer`, the observer completes without mutating any entity
(the world is returned unchanged; the embedding is a total function, so
no error is raised). -/
theorem observer_without_players_is_no_op (w : World) (t : Nat)
    (h : ∀ c ∈ iter_descendants w t, w.players c = none) :
    play_animation_when_ready w t = w := by
  cases hm : w.animations_to_play t with
  | none => simp only [play_animation_when_ready, hm]
  | some atp =>
    have hcm : (observerLoop atp (iter_descendants w t) w.players []).2 = [] := by
      rw [observerLoop_cmds]
      have hf : (iter_descendants w t).filter (fun c => (w.players c).isSome) = [] := by
        apply List.filter_eq_nil_iff.mpr
        intro a ha
        simp [h a ha]
      rw [hf]
      rfl
    have hpl : (observerLoop atp (iter_descendants w t) w.players []).1 = w.players := by
      funext e
      rw [observerLoop_players]
      cases he : w.players e with
      | none => rfl
      | some p =>
        have hni : e ∉ iter_descendants w t := by
          intro hin
          rw [h e hin] at he
          cases he
        simp [hni]
    simp only [play_animation_when_ready, hm]
    rw [hpl, hcm]
    rfl

/-- Witness for C3: in `markerOnlyWorld` the sole descendant of entity 0
has no player, and the observer leaves the world unchanged. -/
theorem observer_without_players_is_no_op_witness :
    iter_descendants markerOnlyWorld 0 = [1] ∧
    markerOnlyWorld.players 1 = none ∧
    play_animation_when_ready markerOnlyWorld 0 = markerOnlyWorld :=
  ⟨by decide, rfl, observer_without_players_is_no_op markerOnlyWorld 0 (by decide)⟩

/-- C7: the observer never removes or modifies the `AnimationToPlay`
marker: the whole marker store is unchanged, so after the observer fires
the marker is still attached to its entity, unchanged. -/
theorem observer_preserves_marker (w : World) (t : Nat) :
    (play_animation_when_ready w t).animations_to_play = w.animations_to_play := by
  cases hm : w.animations_to_play t <;> simp only [play_animation_when_ready, hm]

/-- C8: both lookups in the observer are guarded: a child whose
`AnimationPlayer` lookup fails is skipped silently — its player store
entry stays empty and its graph-handle component is untouched —
regardless of whether the marker lookup succeeded (the embedding is a
total function: no panic, no propagated failure). -/
theorem observer_skips_child_without_player (w : World) (t child : Nat)
    (hp : w.players child = none) :
    (play_animation_when_ready w t).players child = none ∧
    (play_animation_when_ready w t).graph_handles child = w.graph_handles child := by
  cases hm : w.animations_to_play t with
  | none =>
    simp only [play_animation_when_ready, hm]
    exact ⟨hp, trivial⟩
  | some atp =>
    have hw : play_animation_when_ready w t =
        { w with
          players := (observerLoop atp (iter_descendants w t) w.players []).1,
          graph_handles := applyCommands
            (observerLoop atp (iter_descendants w t) w.players []).2
            w.graph_handles } := by
      simp only [play_animation_when_ready, hm]
    constructor
    · rw [hw]
      show (observerLoop atp (iter_descendants w t) w.players []).1 child = none
      rw [observerLoop_players, hp]
    · rw [hw]
      show applyCommands (observerLoop atp (iter_descendants w t) w.players []).2
        w.graph_handles child = w.graph_handles child
      rw [applyCommands_eq]
      have hnot : child ∉
          ((observerLoop atp (iter_descendants w t) w.players []).2).map Prod.fst := by
        rw [observerLoop_cmds]
        simp only [List.nil_append, List.map_map, List.mem_map, Function.comp_apply]
        rintro ⟨a, ha, rfl⟩
        rw [List.mem_filter] at ha
        rw [hp] at ha
        simp at ha
      rw [lookupLast_eq_none _ _ hnot]

/-- Witness for C8: in `demoWorld`, entity 2 has no player; after the
observer runs for entity 0, entity 2 still has no player and no graph
handle. -/
theorem observer_skips_child_without_player_witness :
    demoWorld.players 2 = none ∧
    ((play_animation_when_ready demoWorld 0).players 2 = none ∧
     (play_animation_when_ready demoWorld 0).graph_handles 2 = demoWorld.graph_handles 2) :=
  ⟨rfl, observer_skips_child_without_player demoWorld 0 2 rfl⟩

/-- The observer on a marker-carrying target, written out: descendant
loop on the player store, then the deferred graph-handle insertions. -/
lemma play_eq_of_marker (w : World) (t : Nat) (atp : AnimationToPlay)
    (hm : w.animations_to_play t = some atp) :
    play_animation_when_ready w t =
      { w with
        players := (observerLoop atp (iter_descendants w t) w.players []).1,
        graph_handles := applyCommands
          (observerLoop atp (iter_descendants w t) w.players []).2
          w.graph_handles } := by
  simp only [play_animation_when_ready, hm]

/-- C4: the second entity spawned by `setup_mesh_and_animation` (the corn
scene request) carries no `AnimationToPlay` marker, and handling a
scene-ready notification for any entity whose marker lookup fails is a
no-op. -/
theorem second_scene_without_marker_observer_no_op (gh idx : Nat)
    (w : World) (t : Nat) (hm : w.animations_to_play t = none) :
    (setup_mesh_and_animation gh idx)[1]? =
      some { animation_to_play := none, scene_root := some CORN,
             has_play_observer := false } ∧
    play_animation_when_ready w t = w :=
  ⟨rfl, by simp only [play_animation_when_ready, hm]⟩

/-- Witness for C4: `emptyWorld` has no marker on entity 5; handling the
notification there changes nothing, and the second spawned entity is the
markerless corn request. -/
theorem second_scene_without_marker_observer_no_op_witness :
    emptyWorld.animations_to_play 5 = none ∧
    ((setup_mesh_and_animation 7 2)[1]? =
      some { animation_to_play := none, scene_root := some CORN,
             has_play_observer := false } ∧
     play_animation_when_ready emptyWorld 5 = emptyWorld) :=
  ⟨rfl, second_scene_without_marker_observer_no_op 7 2 emptyWorld 5 rfl⟩

/-- C5: re-running the observer with the same trigger target yields
exactly the world of the first run (playback is restarted to the same
state and the same graph handle re-inserted), and the embedding is a
total function, so the second invocation cannot crash. -/
theorem observer_idempotent (w : World) (t : Nat) :
    play_animation_when_ready (play_animation_when_ready w t) t =
      play_animation_when_ready w t := by
  cases hm : w.animations_to_play t with
  | none => simp only [play_animation_when_ready, hm]
  | some atp =>
    have h1 := play_eq_of_marker w t atp hm
    have hm1 : (play_animation_when_ready w t).animations_to_play t = some atp := by
      rw [h1]
      exact hm
    have h2 := play_eq_of_marker (play_animation_when_ready w t) t atp hm1
    rw [h1] at h2
    rw [h1, h2]
    show ({ w with
        players := (observerLoop atp (iter_descendants w t)
          (observerLoop atp (iter_descendants w t) w.players []).1 []).1,
        graph_handles := applyCommands
          (observerLoop atp (iter_descendants w t)
            (observerLoop atp (iter_descendants w t) w.players []).1 []).2
          (applyCommands (observerLoop atp (iter_descendants w t) w.players []).2
            w.graph_handles) } : World) =
      { w with
        players := (observerLoop atp (iter_descendants w t) w.players []).1,
        graph_handles := applyCommands
          (observerLoop atp (iter_descendants w t) w.players []).2
          w.graph_handles }
    have hppt : (observerLoop atp (iter_descendants w t)
        (observerLoop atp (iter_descendants w t) w.players []).1 []).1 =
        (observerLoop atp (iter_descendants w t) w.players []).1 := by
      funext e
      rw [observerLoop_players, observerLoop_players]
      cases he : w.players e with
      | none => simp
      | some p =>
        by_cases hin : e ∈ iter_descendants w t
        · simp [hin, playRepeat_idem]
        · simp [hin]
    have hcmds : (observerLoop atp (iter_descendants w t)
        (observerLoop atp (iter_descendants w t) w.players []).1 []).2 =
        (observerLoop atp (iter_descendants w t) w.players []).2 := by
      rw [observerLoop_cmds, observerLoop_cmds]
      simp only [List.nil_append]
      refine congrArg _ ?_
      apply List.filter_congr
      intro x _
      rw [observerLoop_players]
      cases hxe : w.players x with
      | none => simp
      | some p =>
        by_cases hin : x ∈ iter_descendants w t
        · simp [hin]
        · simp [hin]
    rw [hppt, hcmds, applyCommands_idem]

/-- C6: `setup_mesh_and_animation` attaches the `AnimationToPlay` marker
and the factory scene-load request to one and the same entity, and that
entity is the only spawned entity carrying a marker. -/
theorem marker_and_scene_request_share_entity (gh idx : Nat) :
    ∃ e, e ∈ setup_mesh_and_animation gh idx ∧
      e.animation_to_play = some { graph_handle := gh, index := idx } ∧
      e.scene_root = some FACTORY ∧
      ∀ e2 ∈ setup_mesh_and_animation gh idx, e2.animation_to_play.isSome → e2 = e := by
  refine ⟨{ animation_to_play := some { graph_handle := gh, index := idx },
            scene_root := some FACTORY, has_play_observer := true },
    ?_, rfl, rfl, ?_⟩
  · simp [setup_mesh_and_animation]
  · intro e2 he2 hsome
    simp only [setup_mesh_and_animation, List.mem_cons, List.not_mem_nil,
      or_false] at he2
    rcases he2 with rfl | rfl
    · rfl
    · simp at hsome

/-- C9: the startup system issues exactly two scene-load requests, for
the factory file then the corn file, and attaches the play-this-animation
intent to exactly the first (factory) entity. -/
theorem setup_issues_two_scene_requests (gh idx : Nat) :
    (setup_mesh_and_animation gh idx).filterMap (fun e => e.scene_root) =
      [FACTORY, CORN] ∧
    (setup_mesh_and_animation gh idx).map (fun e => e.animation_to_play) =
      [some { graph_handle := gh, index := idx }, none] :=
  ⟨rfl, rfl⟩

/-- One step of `draw_mesh_intersections`: the head pointer contributes
its own draw calls in front of the rest. -/
lemma draw_mesh_intersections_cons (nrm : V3 → V3) (p : PointerInteraction)
    (rest : List PointerInteraction) :
    draw_mesh_intersections nrm (p :: rest) =
      drawsForPointer nrm p ++ draw_mesh_intersections nrm rest := by
  cases h : get_nearest_hit p with
  | none => simp [draw_mesh_intersections, drawsForPointer, List.filterMap_cons, h]
  | some eh =>
    cases hp : eh.2.position with
    | none =>
      simp [draw_mesh_intersections, drawsForPointer, List.filterMap_cons, h, hp, optZip]
    | some point =>
      cases hn : eh.2.normal with
      | none =>
        simp [draw_mesh_intersections, drawsForPointer, List.filterMap_cons,
          h, hp, hn, optZip]
      | some normal =>
        simp [draw_mesh_intersections, drawsForPointer, List.filterMap_cons,
          h, hp, hn, optZip]

/-- C10: `draw_mesh_intersections` decomposes pointer by pointer, and a
pointer contributes draw calls exactly when it has a nearest hit whose
position and normal are both present; a pointer with no hit, or a hit
missing either value, contributes nothing. -/
theorem draw_only_complete_nearest_hits (nrm : V3 → V3)
    (ps : List PointerInteraction) :
    draw_mesh_intersections nrm ps = ps.flatMap (drawsForPointer nrm) ∧
    ∀ p : PointerInteraction,
      (drawsForPointer nrm p ≠ [] ↔
        ∃ eh point normal, get_nearest_hit p = some eh ∧
          eh.2.position = some point ∧ eh.2.normal = some normal) := by
  constructor
  · induction ps with
    | nil => rfl
    | cons p rest ih =>
      rw [draw_mesh_intersections_cons, ih, List.flatMap_cons]
  · intro p
    constructor
    · intro hne
      cases h : get_nearest_hit p with
      | none => simp [drawsForPointer, h] at hne
      | some eh =>
        cases hp : eh.2.position with
        | none => simp [drawsForPointer, h, hp] at hne
        | some point =>
          cases hn : eh.2.normal with
          | none => simp [drawsForPointer, h, hp, hn] at hne
          | some normal => exact ⟨eh, point, normal, rfl, hp, hn⟩
    · rintro ⟨eh, point, normal, h, hp, hn⟩
      simp [drawsForPointer, h, hp, hn]
